import Mathlib

/-!
Shallow embedding of the Samba share configuration manager
(`samba-setup.py`: class `SambaManager` and the file-operation helpers of
class `Manager`).  Lines of the configuration file are modelled as a
`List String` (each element one line as returned by Python's
`readlines`, i.e. including its newline character); file contents are
`String`.
-/

/-- Python's `str.strip()` whitespace set (ASCII part): space, tab,
newline, carriage return, vertical tab, form feed. -/
def pyIsSpace (c : Char) : Bool :=
  c == ' ' || c == '\t' || c == '\n' || c == '\r' ||
  c == Char.ofNat 11 || c == Char.ofNat 12

/-- Drop characters satisfying `p` from both ends of a character list. -/
def stripWhile (p : Char → Bool) (cs : List Char) : List Char :=
  ((cs.dropWhile p).reverse.dropWhile p).reverse

/-- Python `line.strip()`. -/
def pyStrip (s : String) : String := ⟨stripWhile pyIsSpace s.data⟩

/-- Python `s.startswith(pre)`. -/
def startsWithS (pre s : String) : Bool := pre.data.isPrefixOf s.data

/-- Python `s.endswith(suf)`. -/
def endsWithS (suf s : String) : Bool := suf.data.isSuffixOf s.data

def isBracketChar (c : Char) : Bool := c == '[' || c == ']'

/-- Python `s.strip("[]")`: removes `[` and `]` characters from both ends. -/
def pyStripBrackets (s : String) : String := ⟨stripWhile isBracketChar s.data⟩

/-- Python `s.lower()` (ASCII letters; share names in this file are ASCII). -/
def pyLower (s : String) : String := ⟨s.data.map Char.toLower⟩

/-- Match a literal pattern case-insensitively at the start of `cs`,
returning the remainder on success.  Used to embed the anchored,
`re.IGNORECASE` literal part of `re.match`. -/
def stripLitCI : List Char → List Char → Option (List Char)
  | [], cs => some cs
  | _ :: _, [] => none
  | p :: ps, c :: cs => if p.toLower == c.toLower then stripLitCI ps cs else none

/-- Embeds `re.match(r"path\s*=\s*(.*)", line_strip, re.IGNORECASE)`,
returning `group(1)`: the literal `path`, then optional whitespace, `=`,
optional whitespace, then the rest of the line captured. -/
def rePathMatch (s : String) : Option String :=
  match stripLitCI "path".data s.data with
  | none => none
  | some rest =>
    match rest.dropWhile pyIsSpace with
    | '=' :: rest2 => some ⟨rest2.dropWhile pyIsSpace⟩
    | _ => none

/-- Python `dict` assignment `m[k] = v`: overwrite in place when the key
exists (keeping insertion order), otherwise append at the end. -/
def dictSet (m : List (String × String)) (k v : String) :
    List (String × String) :=
  if k ∈ m.map Prod.fst then
    m.map (fun p => if p.1 = k then (k, v) else p)
  else m ++ [(k, v)]

/-- The loop state of `SambaManager.list_shares`: the `shares` dict and
the `current_share` variable (`none` models Python's `None`). -/
structure ListState where
  shares : List (String × String)
  current : Option String
deriving DecidableEq

/-- One iteration of the `for line in f` loop of
`SambaManager.list_shares` (samba-setup.py lines 150-160). -/
def listSharesStep (st : ListState) (line : String) : ListState :=
  let ls := pyStrip line
  if startsWithS "[" ls && endsWithS "]" ls then
    let name := pyStripBrackets ls
    if pyLower name = "global" then st
    else { shares := dictSet st.shares name "", current := some name }
  else
    match st.current with
    | none => st
    | some cur =>
      if cur = "" then st
      else if startsWithS "path" (pyLower ls) then
        match rePathMatch ls with
        | some v => { st with shares := dictSet st.shares cur v }
        | none => st
      else st

/-- `SambaManager.list_shares` (samba-setup.py lines 143-161):
returns the empty dict when the config file does not exist, otherwise
folds the loop body over the file's lines. -/
def list_shares (confExists : Bool) (lines : List String) :
    List (String × String) :=
  if confExists then (lines.foldl listSharesStep ⟨[], none⟩).shares else []

/-- The filtering loop of `SambaManager.remove_share`
(samba-setup.py lines 226-237), with the `in_block` flag explicit. -/
def removeShareAux (name : String) : Bool → List String → List String
  | _, [] => []
  | inBlock, line :: rest =>
    let stripped := pyStrip line
    if startsWithS ("[" ++ name ++ "]") stripped then
      removeShareAux name true rest
    else
      let inBlock2 :=
        if inBlock && (startsWithS "[" stripped && endsWithS "]" stripped)
        then false else inBlock
      if inBlock2 then removeShareAux name inBlock2 rest
      else line :: removeShareAux name inBlock2 rest

/-- The rebuilt line list produced by `SambaManager.remove_share`. -/
def removeShare (name : String) (lines : List String) : List String :=
  removeShareAux name false lines

def SMB_CONF : String := "/etc/samba/smb.conf"

def SMB_CONF_BAK : String := "/etc/samba/smb.conf.bak"

/-- The observable side effects of the manager operations, in program
order.  Events that do not touch the configuration artifact (directory
creation, user management, permission changes, samba passwords) are kept
so that the order of the backup relative to the config mutation is the
order in the source. -/
inductive Event where
  | mkdirShared (dir : String)
  | ensureUser (u : String)
  | chownRec (dir u : String)
  | chmodRec (dir : String)
  | backupCopy
  | backupWarn
  | readConf
  | appendConf (block : String)
  | writeTemp (content : String)
  | replaceConf (newLines : List String)
  | smbpasswdAdd (u : String)
  | smbpasswdEnable (u : String)
deriving DecidableEq

/-- `SambaManager.backup_conf` (samba-setup.py lines 115-121): copy the
config over the backup slot when the config exists, otherwise print a
warning and do nothing. -/
def backup_conf_events (confExists : Bool) : List Event :=
  if confExists then [Event.backupCopy] else [Event.backupWarn]

/-- The `smb_conf_block` f-string templates of `SambaManager.add_share`
(samba-setup.py lines 183-205). -/
def smb_conf_block (guest : Bool) (share_name shared_dir : String) : String :=
  if guest then
    "\n\n[" ++ share_name ++ "]\n   path = " ++ shared_dir ++
    "\n   browseable = yes\n   writeable = yes\n   guest ok = yes\n   create mask = 0777\n   directory mask = 0777\n"
  else
    "\n\n[" ++ share_name ++ "]\n   path = " ++ shared_dir ++
    "\n   browseable = yes\n   writeable = yes\n   only guest = no\n   create mask = 0777\n   directory mask = 0777\n   public = yes\n"

/-- `SambaManager.add_share` (samba-setup.py lines 167-214) as its event
trace: mkdir; for non-guest shares ensure the user and chown; chmod;
backup; append the rendered block; for non-guest shares set the samba
password. -/
def add_share_events (confExists : Bool)
    (username shared_dir share_name : String) (guest : Bool) : List Event :=
  [Event.mkdirShared shared_dir]
  ++ (if guest then [] else [Event.ensureUser username, Event.chownRec shared_dir username])
  ++ [Event.chmodRec shared_dir]
  ++ backup_conf_events confExists
  ++ [Event.appendConf (smb_conf_block guest share_name shared_dir)]
  ++ (if guest then [] else [Event.smbpasswdAdd username, Event.smbpasswdEnable username])

/-- Python `"".join`-like concatenation used by `writelines`. -/
def joinLines (ls : List String) : String := String.join ls

/-- `SambaManager.remove_share` (samba-setup.py lines 216-245) as an
event trace plus result: raise `ManagerError` when the config file does
not exist (before doing anything else); otherwise backup, read, rebuild
the lines, write them to a temp file and replace the config. -/
def remove_share_run (confExists : Bool) (name : String)
    (lines : List String) : List Event × Except String (List String) :=
  if confExists then
    ([Event.backupCopy, Event.readConf,
      Event.writeTemp (joinLines (removeShare name lines)),
      Event.replaceConf (removeShare name lines)],
     Except.ok (removeShare name lines))
  else
    ([], Except.error (SMB_CONF ++ " does not exist"))

/-- Events that write the backing configuration artifact. -/
def isConfWrite : Event → Bool
  | Event.appendConf _ => true
  | Event.replaceConf _ => true
  | _ => false

/-- Events that write the backup artifact. -/
def isBackupWrite : Event → Bool
  | Event.backupCopy => true
  | _ => false

/-- An abstract filesystem: content per path, `none` for an absent file. -/
def FS : Type := String → Option String

/-- Primitive file steps performed by `Manager.privileged_replace_file`:
a rename (what `shutil.move` does within one filesystem), an in-place
copy (`cp src dst`), and an unlink. -/
inductive FsStep where
  | rename (src dst : String)
  | copyInto (src dst : String)
  | unlink (p : String)
deriving DecidableEq

/-- `Manager.privileged_replace_file` (samba-setup.py lines 70-76): when
running as root, move the temp file over the destination; otherwise run
`cp tmp dst` and then unlink the temp file. -/
def privileged_replace_file (isRoot : Bool) (tmp_src dst : String) :
    List FsStep :=
  if isRoot then [FsStep.rename tmp_src dst]
  else [FsStep.copyInto tmp_src dst, FsStep.unlink tmp_src]

/-- Effect of one file step on the abstract filesystem. -/
def execStep (fs : FS) : FsStep → FS
  | FsStep.rename s d => fun p => if p = d then fs s else if p = s then none else fs p
  | FsStep.copyInto s d => fun p => if p = d then fs s else fs p
  | FsStep.unlink s => fun p => if p = s then none else fs p

/-- Run a list of file steps. -/
def execSteps (fs : FS) (steps : List FsStep) : FS := steps.foldl execStep fs

/-- Modelled on the spec words for `remove` (§4.3): rebuild the line
stream omitting exactly the FIRST Section whose header line, trimmed,
equals `[name]`; every other line is preserved.  State 0 = searching,
1 = inside the matched section, 2 = done. -/
def removeFirstSpecAux (name : String) : Nat → List String → List String
  | _, [] => []
  | 0, l :: rest =>
    if pyStrip l = "[" ++ name ++ "]" then removeFirstSpecAux name 1 rest
    else l :: removeFirstSpecAux name 0 rest
  | 1, l :: rest =>
    if startsWithS "[" (pyStrip l) && endsWithS "]" (pyStrip l) then
      l :: removeFirstSpecAux name 2 rest
    else removeFirstSpecAux name 1 rest
  | _, l :: rest => l :: removeFirstSpecAux name 2 rest

/-- Spec-side removal of exactly the first exactly-matching section. -/
def removeFirstSpec (name : String) (lines : List String) : List String :=
  removeFirstSpecAux name 0 lines

/-- Spec-side `extractPath` (§4.1): the FIRST line matching the
`path = <value>` pattern wins; `none` when no line matches. -/
def firstPathSpec : List String → Option String
  | [] => none
  | l :: rest =>
    match rePathMatch (pyStrip l) with
    | some v => some v
    | none => firstPathSpec rest

/-- The value of the LAST line of a section matching the
`path = <value>` pattern, or `""` when no line matches (the behaviour
`list_shares` actually exhibits inside one section). -/
def lastPathSpec (L : List String) : String :=
  L.foldl (fun acc l =>
    match rePathMatch (pyStrip l) with
    | some v => v
    | none => acc) ""

theorem dictSet_nil (k v : String) : dictSet [] k v = [(k, v)] := by
  simp [dictSet]

theorem dictSet_singleton (k a v : String) :
    dictSet [(k, a)] k v = [(k, v)] := by
  simp [dictSet]

theorem mem_keys_dictSet (m : List (String × String)) (k v x : String)
    (hx : x ∈ (dictSet m k v).map Prod.fst) :
    x ∈ m.map Prod.fst ∨ x = k := by
  unfold dictSet at hx
  by_cases hk : k ∈ m.map Prod.fst
  · rw [if_pos hk, List.map_map] at hx
    obtain ⟨p, hp, hpx⟩ := List.mem_map.mp hx
    by_cases hpk : p.1 = k
    · right
      simpa [Function.comp, hpk] using hpx.symm
    · left
      simp only [Function.comp, if_neg hpk] at hpx
      exact hpx ▸ List.mem_map.mpr ⟨p, hp, rfl⟩
  · rw [if_neg hk, List.map_append] at hx
    rcases List.mem_append.mp hx with h | h
    · exact Or.inl h
    · right
      simpa using h

theorem stripLitCI_eq_none (p : List Char) :
    ∀ cs : List Char,
      (p.map Char.toLower).isPrefixOf (cs.map Char.toLower) = false →
      stripLitCI p cs = none := by
  induction p with
  | nil => intro cs h; simp [List.isPrefixOf] at h
  | cons a as ih =>
    intro cs h
    cases cs with
    | nil => rfl
    | cons c cs2 =>
      simp only [List.map_cons, List.isPrefixOf, Bool.and_eq_false_iff] at h
      cases hb : (a.toLower == c.toLower) with
      | false => simp [stripLitCI, hb]
      | true =>
        rcases h with h | h
        · rw [hb] at h; exact absurd h (by simp)
        · simp only [stripLitCI, hb, if_true]
          exact ih cs2 h

theorem rePathMatch_eq_none (s : String)
    (h : startsWithS "path" (pyLower s) = false) : rePathMatch s = none := by
  have hmap : ("path".data.map Char.toLower) = "path".data := by decide
  have h2 : ("path".data.map Char.toLower).isPrefixOf
      (s.data.map Char.toLower) = false := by
    rw [hmap]; exact h
  unfold rePathMatch
  rw [stripLitCI_eq_none _ _ h2]

theorem startsWith_path_of_rePathMatch (s v : String)
    (h : rePathMatch s = some v) :
    startsWithS "path" (pyLower s) = true := by
  cases hb : startsWithS "path" (pyLower s) with
  | true => rfl
  | false => rw [rePathMatch_eq_none s hb] at h; exact absurd h (by simp)

/-- Evaluate one `list_shares` loop iteration on a non-header line,
inside a nonempty-named current section. -/
theorem listSharesStep_in_section (sh : List (String × String))
    (n l : String) (hn : ¬ n = "")
    (hl : ¬ (startsWithS "[" (pyStrip l) && endsWithS "]" (pyStrip l)) = true) :
    listSharesStep ⟨sh, some n⟩ l =
      ⟨match rePathMatch (pyStrip l) with
       | some v => dictSet sh n v
       | none => sh, some n⟩ := by
  simp only [listSharesStep]
  rw [if_neg hl, if_neg hn]
  by_cases hp : startsWithS "path" (pyLower (pyStrip l)) = true
  · rw [if_pos hp]
    cases hm : rePathMatch (pyStrip l) with
    | none => rfl
    | some v => rfl
  · rw [if_neg hp]
    rw [rePathMatch_eq_none (pyStrip l) (by
      revert hp
      cases startsWithS "path" (pyLower (pyStrip l)) <;> simp)]

/-- Folding the `list_shares` loop over lines that contain no section
header, starting inside a section named `n`, updates only `n`'s entry
and updates it to the last matching `path = <value>` line. -/
theorem foldl_section (n : String) (hn : ¬ n = "") :
    ∀ (L : List String) (m : String),
      (∀ l ∈ L, (startsWithS "[" (pyStrip l) && endsWithS "]" (pyStrip l)) = false) →
      L.foldl listSharesStep ⟨[(n, m)], some n⟩
        = ⟨[(n, L.foldl (fun acc l =>
            match rePathMatch (pyStrip l) with
            | some v => v
            | none => acc) m)], some n⟩ := by
  intro L
  induction L with
  | nil => intro m _; rfl
  | cons l rest ih =>
    intro m h
    have hl := h l (List.mem_cons_self l rest)
    have hrest : ∀ x ∈ rest,
        (startsWithS "[" (pyStrip x) && endsWithS "]" (pyStrip x)) = false :=
      fun x hx => h x (List.mem_cons_of_mem l hx)
    rw [List.foldl_cons,
        listSharesStep_in_section [(n, m)] n l hn (by rw [hl]; simp)]
    cases hm : rePathMatch (pyStrip l) with
    | none =>
      rw [List.foldl_cons]
      simp only [hm]
      exact ih m hrest
    | some v =>
      rw [List.foldl_cons]
      simp only [hm, dictSet_singleton]
      exact ih v hrest

/-- Invariant used for the "global never listed" claim: no key of the
dict lowers to "global", and neither does the current section name. -/
def StateInv (st : ListState) : Prop :=
  (∀ k ∈ st.shares.map Prod.fst, ¬ pyLower k = "global") ∧
  (∀ c, st.current = some c → ¬ pyLower c = "global")

theorem keys_dictSet_no_global (sh : List (String × String)) (k v : String)
    (hkeys : ∀ x ∈ sh.map Prod.fst, ¬ pyLower x = "global")
    (hkg : ¬ pyLower k = "global") :
    ∀ x ∈ (dictSet sh k v).map Prod.fst, ¬ pyLower x = "global" := by
  intro x hx
  rcases mem_keys_dictSet _ _ _ _ hx with h1 | h1
  · exact hkeys x h1
  · rw [h1]; exact hkg

theorem stateInv_step (st : ListState) (l : String) (h : StateInv st) :
    StateInv (listSharesStep st l) := by
  obtain ⟨sh, cur⟩ := st
  obtain ⟨hkeys, hcur⟩ := h
  cases cur with
  | none =>
    simp only [listSharesStep]
    by_cases hb : (startsWithS "[" (pyStrip l) && endsWithS "]" (pyStrip l)) = true
    · rw [if_pos hb]
      by_cases hg : pyLower (pyStripBrackets (pyStrip l)) = "global"
      · rw [if_pos hg]; exact ⟨hkeys, hcur⟩
      · rw [if_neg hg]
        refine ⟨keys_dictSet_no_global sh _ "" hkeys hg, ?_⟩
        intro c hc
        have hc2 : pyStripBrackets (pyStrip l) = c := by simpa using hc
        rw [← hc2]; exact hg
    · rw [if_neg hb]; exact ⟨hkeys, hcur⟩
  | some c =>
    have hcg : ¬ pyLower c = "global" := hcur c rfl
    simp only [listSharesStep]
    by_cases hb : (startsWithS "[" (pyStrip l) && endsWithS "]" (pyStrip l)) = true
    · rw [if_pos hb]
      by_cases hg : pyLower (pyStripBrackets (pyStrip l)) = "global"
      · rw [if_pos hg]; exact ⟨hkeys, hcur⟩
      · rw [if_neg hg]
        refine ⟨keys_dictSet_no_global sh _ "" hkeys hg, ?_⟩
        intro c2 hc
        have hc2 : pyStripBrackets (pyStrip l) = c2 := by simpa using hc
        rw [← hc2]; exact hg
    · rw [if_neg hb]
      by_cases hce : c = ""
      · rw [if_pos hce]; exact ⟨hkeys, hcur⟩
      · rw [if_neg hce]
        by_cases hpp : startsWithS "path" (pyLower (pyStrip l)) = true
        · rw [if_pos hpp]
          cases hm : rePathMatch (pyStrip l) with
          | none => exact ⟨hkeys, hcur⟩
          | some v =>
            exact ⟨keys_dictSet_no_global sh c v hkeys hcg, hcur⟩
        · rw [if_neg hpp]; exact ⟨hkeys, hcur⟩

theorem stateInv_foldl (L : List String) :
    ∀ st : ListState, StateInv st → StateInv (L.foldl listSharesStep st) := by
  induction L with
  | nil => intro st h; exact h
  | cons l rest ih =>
    intro st h
    rw [List.foldl_cons]
    exact ih _ (stateInv_step st l h)

theorem removeShareAux_sublist (name : String) :
    ∀ (lines : List String) (b : Bool),
      (removeShareAux name b lines).Sublist lines := by
  intro lines
  induction lines with
  | nil => intro b; simp [removeShareAux]
  | cons l rest ih =>
    intro b
    simp only [removeShareAux]
    by_cases ht : startsWithS ("[" ++ name ++ "]") (pyStrip l) = true
    · rw [if_pos ht]
      exact (ih true).cons l
    · rw [if_neg ht]
      by_cases hib : (if b && (startsWithS "[" (pyStrip l) && endsWithS "]" (pyStrip l))
          then false else b) = true
      · rw [if_pos hib]
        exact (ih _).cons l
      · rw [if_neg hib]
        exact (ih _).cons₂ l

theorem removeShareAux_no_match (name : String) :
    ∀ (lines : List String) (b : Bool) (l : String),
      l ∈ removeShareAux name b lines →
      startsWithS ("[" ++ name ++ "]") (pyStrip l) = false := by
  intro lines
  induction lines with
  | nil => intro b l hl; simp [removeShareAux] at hl
  | cons x rest ih =>
    intro b l hl
    simp only [removeShareAux] at hl
    by_cases ht : startsWithS ("[" ++ name ++ "]") (pyStrip x) = true
    · rw [if_pos ht] at hl
      exact ih true l hl
    · rw [if_neg ht] at hl
      by_cases hib : (if b && (startsWithS "[" (pyStrip x) && endsWithS "]" (pyStrip x))
          then false else b) = true
      · rw [if_pos hib] at hl
        exact ih _ l hl
      · rw [if_neg hib] at hl
        rcases List.mem_cons.mp hl with h1 | h1
        · rw [h1]
          revert ht
          cases startsWithS ("[" ++ name ++ "]") (pyStrip x) <;> simp
        · exact ih _ l h1

theorem removeShareAux_id (name : String) :
    ∀ lines : List String,
      (∀ l ∈ lines, startsWithS ("[" ++ name ++ "]") (pyStrip l) = false) →
      removeShareAux name false lines = lines := by
  intro lines
  induction lines with
  | nil => intro _; rfl
  | cons l rest ih =>
    intro h
    have hl := h l (List.mem_cons_self l rest)
    simp only [removeShareAux]
    rw [if_neg (by rw [hl]; simp)]
    simp only [Bool.false_and, Bool.false_eq_true, if_false]
    rw [ih (fun x hx => h x (List.mem_cons_of_mem l hx))]

theorem isPrefixOf_append_self (l1 l2 : List Char) :
    l1.isPrefixOf (l1 ++ l2) = true := by
  induction l1 with
  | nil => simp
  | cons a as ih => simp [List.isPrefixOf, ih]

theorem startsWith_lbracket (n : String) :
    startsWithS "[" ("[" ++ n ++ "]") = true := by
  unfold startsWithS
  have hdata : ("[" ++ n ++ "]").data = "[".data ++ (n.data ++ "]".data) := by
    rw [show ("[" ++ n ++ "]").data = ("[".data ++ n.data) ++ "]".data from rfl,
        List.append_assoc]
  rw [hdata]
  exact isPrefixOf_append_self _ _

theorem endsWith_rbracket (n : String) :
    endsWithS "]" ("[" ++ n ++ "]") = true := by
  unfold endsWithS
  have hdata : ("[" ++ n ++ "]").data = ("[".data ++ n.data) ++ "]".data := rfl
  rw [hdata]
  unfold List.isSuffixOf
  rw [List.reverse_append]
  exact isPrefixOf_append_self _ _

/-- Folding the whole `list_shares` loop over a well-formed header for
`n` followed by header-free section lines `L` yields exactly one share,
`n`, whose path is the value of the last matching `path` line of `L`. -/
theorem foldl_header_section (n : String) (L : List String)
    (h1 : ¬ n = "") (h2 : ¬ pyLower n = "global")
    (h3 : pyStrip ("[" ++ n ++ "]") = "[" ++ n ++ "]")
    (h4 : pyStripBrackets ("[" ++ n ++ "]") = n)
    (h5 : ∀ l ∈ L, (startsWithS "[" (pyStrip l) && endsWithS "]" (pyStrip l)) = false) :
    (("[" ++ n ++ "]") :: L).foldl listSharesStep ⟨[], none⟩
      = ⟨[(n, lastPathSpec L)], some n⟩ := by
  rw [List.foldl_cons]
  have hstep : listSharesStep ⟨[], none⟩ ("[" ++ n ++ "]") = ⟨[(n, "")], some n⟩ := by
    simp only [listSharesStep]
    rw [h3, startsWith_lbracket, endsWith_rbracket]
    rw [if_pos (by simp : (true && true) = true)]
    rw [h4, if_neg h2, dictSet_nil]
  rw [hstep, foldl_section n h1 L "" h5]
  rfl

example :
    list_shares true
      ["[global]\n", "  workgroup = WORKGROUP\n",
       "[Shared]\n", "  path = /home/pi/shared\n"]
      = [("Shared", "/home/pi/shared")] := by decide

example :
    removeShare "Shared"
      ["[global]\n", "  workgroup = WORKGROUP\n",
       "[Shared]\n", "  path = /home/pi/shared\n"]
      = ["[global]\n", "  workgroup = WORKGROUP\n"] := by decide

example : removeShare "a" ["[a]\n", "x\n", "[a]\n", "y\n"] = [] := by decide

example :
    list_shares true ["[a]\n", "  path = one\n", "  path = two\n"]
      = [("a", "two")] := by decide

/-- Claim C1 counterexample: on a text with two sections both headed
`[a]`, `remove_share "a"` removes BOTH sections, whereas the spec-side
removal of exactly the first matching Section keeps the later one. -/
theorem remove_share_cex_later_duplicate_removed :
    removeShare "a" ["[a]\n", "   x = 1\n", "[a]\n", "   y = 2\n"] = [] ∧
    removeFirstSpec "a" ["[a]\n", "   x = 1\n", "[a]\n", "   y = 2\n"]
      = ["[a]\n", "   y = 2\n"] :=
  ⟨by decide, by decide⟩

/-- Claim C1 (amended): for every configuration text and share name,
`remove_share` rebuilds the line stream as a subsequence of the
original in which EVERY section whose stripped header line starts with
`[name]` has been omitted (not only the first): no surviving line
passes the removal test. -/
theorem remove_share_removes_every_matching_section
    (name : String) (lines : List String) :
    (removeShare name lines).Sublist lines ∧
    ∀ l ∈ removeShare name lines,
      startsWithS ("[" ++ name ++ "]") (pyStrip l) = false :=
  ⟨removeShareAux_sublist name lines false,
   fun l hl => removeShareAux_no_match name lines false l hl⟩

/-- Witness for the amended claim C1 at a concrete input. -/
theorem remove_share_removes_every_matching_section_witness :
    (removeShare "a" ["[a]\n", "   x = 1\n", "[b]\n"]).Sublist
      ["[a]\n", "   x = 1\n", "[b]\n"] ∧
    startsWithS ("[" ++ "a" ++ "]") (pyStrip "[b]\n") = false :=
  ⟨(remove_share_removes_every_matching_section "a"
      ["[a]\n", "   x = 1\n", "[b]\n"]).1,
   (remove_share_removes_every_matching_section "a"
      ["[a]\n", "   x = 1\n", "[b]\n"]).2 "[b]\n" (by decide)⟩

/-- Claim C2: the code violates it at this input (the spec flags the
prefix test as the source bug).  Removing share "a" also removes the
differently-named section headed `[a]b]` (its name parses to `a]b`),
because `remove_share`'s test is a prefix test on the stripped line,
not an exact comparison with `[a]`. -/
theorem remove_share_prefix_match_failing_input :
    removeShare "a" ["[a]b]\n", "   path = /x\n", "[b]\n", "   path = /y\n"]
      = ["[b]\n", "   path = /y\n"] ∧
    ¬ pyStrip "[a]b]\n" = "[" ++ "a" ++ "]" ∧
    pyStripBrackets (pyStrip "[a]b]\n") = "a]b" :=
  ⟨by decide, by decide, by decide⟩

/-- Claim C3 counterexample: with two `path` lines in one section,
`list_shares` reports the LAST one, while the spec's `extractPath`
(first occurrence wins) yields the first. -/
theorem list_shares_cex_last_path_wins :
    list_shares true ["[a]\n", "   path = one\n", "   path = two\n"]
      = [("a", "two")] ∧
    firstPathSpec ["   path = one\n", "   path = two\n"] = some "one" :=
  ⟨by decide, by decide⟩

/-- Claim C3 (amended): for a non-"global" section with a well-formed
header and no further header among its lines, `list_shares` reports as
the share's path the trimmed value of the LAST line matching the
`path = <value>` pattern (case-insensitive, flexible whitespace), and
the empty string when no line matches. -/
theorem list_shares_reports_last_path (n : String) (L : List String)
    (h1 : ¬ n = "")
    (h2 : ¬ pyLower n = "global")
    (h3 : pyStrip ("[" ++ n ++ "]") = "[" ++ n ++ "]")
    (h4 : pyStripBrackets ("[" ++ n ++ "]") = n)
    (h5 : ∀ l ∈ L, (startsWithS "[" (pyStrip l) && endsWithS "]" (pyStrip l)) = false) :
    list_shares true (("[" ++ n ++ "]") :: L) = [(n, lastPathSpec L)] := by
  unfold list_shares
  rw [if_pos rfl, foldl_header_section n L h1 h2 h3 h4 h5]

/-- Witness for the amended claim C3 at a concrete input. -/
theorem list_shares_reports_last_path_witness :
    list_shares true
      (("[" ++ "a" ++ "]") :: ["   path = one\n", "   path = two\n"])
      = [("a", lastPathSpec ["   path = one\n", "   path = two\n"])] :=
  list_shares_reports_last_path "a" ["   path = one\n", "   path = two\n"]
    (by decide) (by decide) (by decide) (by decide) (by decide)

/-- Claim C7 counterexample: on a text whose only section header is
`[a]b]`, no Section matches name "a" under the exact-match rule (no
line's trimmed form equals `[a]`), yet `remove_share "a"` does not
leave the text identical: it empties it, and the subsequent listing
changes (the share named `a]b` disappears). -/
theorem remove_share_cex_noop_needs_exact_match :
    (∀ l ∈ ["[a]b]\n", "   path = /x\n"], ¬ pyStrip l = "[" ++ "a" ++ "]") ∧
    ¬ removeShare "a" ["[a]b]\n", "   path = /x\n"]
        = ["[a]b]\n", "   path = /x\n"] ∧
    ¬ list_shares true (removeShare "a" ["[a]b]\n", "   path = /x\n"])
        = list_shares true ["[a]b]\n", "   path = /x\n"] :=
  ⟨by decide, by decide, by decide⟩

/-- Claim C7 (amended): if no line of the text passes `remove_share`'s
own matching test for `name` (the prefix test examined in C2, rather
than the spec's exact-match rule), the rebuilt line stream is identical
to the original, the call succeeds (no error, no miss reported), and a
subsequent listing is unchanged. -/
theorem remove_share_no_match_noop (name : String) (lines : List String)
    (h : ∀ l ∈ lines, startsWithS ("[" ++ name ++ "]") (pyStrip l) = false) :
    removeShare name lines = lines ∧
    (remove_share_run true name lines).2 = Except.ok lines ∧
    list_shares true (removeShare name lines) = list_shares true lines := by
  have hid : removeShare name lines = lines := removeShareAux_id name lines h
  refine ⟨hid, ?_, by rw [hid]⟩
  simp [remove_share_run, hid]

/-- Witness for claim C7 at a concrete input. -/
theorem remove_share_no_match_noop_witness :
    removeShare "x" ["[a]\n", "   path = /p\n"] = ["[a]\n", "   path = /p\n"] ∧
    (remove_share_run true "x" ["[a]\n", "   path = /p\n"]).2
      = Except.ok ["[a]\n", "   path = /p\n"] ∧
    list_shares true (removeShare "x" ["[a]\n", "   path = /p\n"])
      = list_shares true ["[a]\n", "   path = /p\n"] :=
  remove_share_no_match_noop "x" ["[a]\n", "   path = /p\n"] (by decide)

/-- Claim C8: when the backing config file is absent, `list_shares`
returns the empty mapping instead of failing. -/
theorem list_shares_missing_conf_empty (lines : List String) :
    list_shares false lines = [] := rfl

/-- Claim C4 counterexample: when not running as root,
`privileged_replace_file` does not relocate the temp file over the
backing artifact in a single step; it runs `cp tmp dst` (an in-place
copy into the artifact) and then unlinks the temp file. -/
theorem replace_file_cex_nonroot_not_relocation :
    ¬ privileged_replace_file false "/tmp/t" "/etc/samba/smb.conf"
        = [FsStep.rename "/tmp/t" "/etc/samba/smb.conf"] := by decide

/-- Claim C4 (amended): in both privilege modes the replacement ends
with the backing artifact holding exactly the temp file's full content
and the temp file removed; only the root mode achieves this by a single
relocation of the temp file. -/
theorem replace_file_final_state (isRoot : Bool) (tmp dst : String)
    (fs : FS) (txt : String)
    (hneq : ¬ tmp = dst) (htmp : fs tmp = some txt) :
    execSteps fs (privileged_replace_file isRoot tmp dst) dst = some txt ∧
    execSteps fs (privileged_replace_file isRoot tmp dst) tmp = none := by
  cases isRoot with
  | true =>
    simp only [privileged_replace_file, if_true, execSteps,
      List.foldl_cons, List.foldl_nil, execStep]
    constructor
    · simp [hneq, htmp]
    · simp [hneq]
  | false =>
    simp only [privileged_replace_file, Bool.false_eq_true, if_false,
      execSteps, List.foldl_cons, List.foldl_nil, execStep]
    constructor
    · have hdn : ¬ dst = tmp := fun hdt => hneq (Eq.symm hdt)
      simp [hdn, htmp]
    · simp

/-- Witness for the amended claim C4 at a concrete input. -/
theorem replace_file_final_state_witness :
    execSteps
      (fun p => if p = "/tmp/t" then some "new"
        else if p = "/etc/samba/smb.conf" then some "old" else none)
      (privileged_replace_file false "/tmp/t" "/etc/samba/smb.conf")
      "/etc/samba/smb.conf" = some "new" ∧
    execSteps
      (fun p => if p = "/tmp/t" then some "new"
        else if p = "/etc/samba/smb.conf" then some "old" else none)
      (privileged_replace_file false "/tmp/t" "/etc/samba/smb.conf")
      "/tmp/t" = none :=
  replace_file_final_state false "/tmp/t" "/etc/samba/smb.conf"
    (fun p => if p = "/tmp/t" then some "new"
      else if p = "/etc/samba/smb.conf" then some "old" else none)
    "new" (by decide) (by decide)

/-- Claim C5: in `add_share` the backup of the config precedes the
append that mutates it (every earlier event touches only the share
directory or accounts, never the config or the backup); in
`remove_share` the backup precedes the replace; and when the config is
missing the backup step is a warning no-op, not a failure. -/
theorem backup_precedes_conf_mutation (confExists guest : Bool)
    (username shared_dir share_name rname : String) (lines : List String) :
    (∃ pre post,
      add_share_events confExists username shared_dir share_name guest
        = pre ++ backup_conf_events confExists
            ++ [Event.appendConf (smb_conf_block guest share_name shared_dir)]
            ++ post ∧
      pre.all (fun e => !isConfWrite e && !isBackupWrite e) = true) ∧
    (∃ mid,
      (remove_share_run true rname lines).1
        = Event.backupCopy :: mid
            ++ [Event.replaceConf (removeShare rname lines)] ∧
      mid.all (fun e => !isConfWrite e) = true) ∧
    backup_conf_events false = [Event.backupWarn] := by
  refine ⟨⟨[Event.mkdirShared shared_dir]
      ++ (if guest then []
          else [Event.ensureUser username, Event.chownRec shared_dir username])
      ++ [Event.chmodRec shared_dir],
    (if guest then []
     else [Event.smbpasswdAdd username, Event.smbpasswdEnable username]),
    ?_, ?_⟩,
    ⟨[Event.readConf, Event.writeTemp (joinLines (removeShare rname lines))],
     ?_, ?_⟩, rfl⟩
  · simp [add_share_events, List.append_assoc]
  · cases guest <;> simp [isConfWrite, isBackupWrite]
  · simp [remove_share_run]
  · simp [isConfWrite]

/-- Claim C6: when the config file does not exist, `remove_share` fails
with the missing-file `ManagerError` (the spec's NotFound) and performs
no event at all: neither the backup nor the config is written. -/
theorem remove_share_missing_conf_notfound (name : String)
    (lines : List String) :
    remove_share_run false name lines
      = ([], Except.error (SMB_CONF ++ " does not exist")) := rfl

/-- Claim C9: no key of the mapping returned by `list_shares` lowers to
"global", for any text, even one containing a global-cased section. -/
theorem global_never_listed (confExists : Bool) (lines : List String)
    (k : String) (hk : k ∈ (list_shares confExists lines).map Prod.fst) :
    ¬ pyLower k = "global" := by
  cases confExists with
  | false => simp [list_shares] at hk
  | true =>
    have hinv := stateInv_foldl lines ⟨[], none⟩ ⟨by simp, by simp⟩
    exact hinv.1 k (by simpa [list_shares] using hk)

/-- Witness for claim C9 at a concrete input containing a `[global]`
section. -/
theorem global_never_listed_witness :
    "A" ∈ (list_shares true ["[global]\n", "[A]\n"]).map Prod.fst ∧
    ¬ pyLower "A" = "global" :=
  ⟨by decide,
   global_never_listed true ["[global]\n", "[A]\n"] "A" (by decide)⟩

/-- Claim C10: a `path = <value>` line inside a "global"-cased section
that appears after a non-global section is attributed to that most
recent preceding non-global section, replacing its reported path: the
global header leaves `current_share` untouched. -/
theorem global_section_path_attribution (n g p v : String) (B : List String)
    (h1 : ¬ n = "") (h2 : ¬ pyLower n = "global")
    (h3 : pyStrip ("[" ++ n ++ "]") = "[" ++ n ++ "]")
    (h4 : pyStripBrackets ("[" ++ n ++ "]") = n)
    (hB : ∀ l ∈ B, (startsWithS "[" (pyStrip l) && endsWithS "]" (pyStrip l)) = false)
    (hg1 : (startsWithS "[" (pyStrip g) && endsWithS "]" (pyStrip g)) = true)
    (hg2 : pyLower (pyStripBrackets (pyStrip g)) = "global")
    (hp1 : (startsWithS "[" (pyStrip p) && endsWithS "]" (pyStrip p)) = false)
    (hp2 : rePathMatch (pyStrip p) = some v) :
    list_shares true ((("[" ++ n ++ "]") :: B) ++ [g, p]) = [(n, v)] := by
  unfold list_shares
  rw [if_pos rfl, List.foldl_append, foldl_header_section n B h1 h2 h3 h4 hB,
      List.foldl_cons]
  have hgstep : listSharesStep ⟨[(n, lastPathSpec B)], some n⟩ g
      = ⟨[(n, lastPathSpec B)], some n⟩ := by
    simp only [listSharesStep]
    rw [if_pos hg1, if_pos hg2]
  rw [hgstep, List.foldl_cons, List.foldl_nil,
      listSharesStep_in_section [(n, lastPathSpec B)] n p h1
        (by rw [hp1]; simp)]
  simp only [hp2, dictSet_singleton]

/-- Witness for claim C10 at a concrete input: the `[GLOBAL]` section's
path line overwrites the preceding share's path. -/
theorem global_section_path_attribution_witness :
    list_shares true
      ((("[" ++ "Shared" ++ "]") :: ["   path = /old\n"])
        ++ ["[GLOBAL]\n", "   path = /new\n"])
      = [("Shared", "/new")] :=
  global_section_path_attribution "Shared" "[GLOBAL]\n" "   path = /new\n"
    "/new" ["   path = /old\n"]
    (by decide) (by decide) (by decide) (by decide) (by decide)
    (by decide) (by decide) (by decide) (by decide)
